import Mathlib

/-!
Shallow embedding of the libshsqlite virtual-table adapter.

The definitions below translate, item by item, the Rust sources of the
repository:

- `soracom_harvest_api_client/src/endpoint.rs` (coverage endpoints),
- `soracom_harvest_api_client/src/client.rs` (the content decoder
  `try_decode` and the entry type `Data`),
- `soracom_harvest_sqlite_extension/src/module_arguments_parser.rs`
  (the creation-argument grammar and `collect_options_from_args`),
- `soracom_harvest_sqlite_extension/src/harvest_data_client.rs`
  (the row cursor `HarvestDataReader`),
- `soracom_harvest_sqlite_extension/src/module.rs` (the lifecycle
  callbacks `shsqlite_create`, `shsqlite_filter`, `shsqlite_next`,
  `shsqlite_eof`, `shsqlite_column`, `shsqlite_rowid` and
  `yield_cell_value`),
- `soracom_harvest_sqlite_extension/src/error.rs`
  (`error_to_sqlite3_string`).

Machine integers are modelled as `Nat`/`Int` with explicit bounds where
the Rust code casts or wraps (`usize as u32` becomes `% 2 ^ 32`; the
`usize` cursor increment becomes addition modulo `2 ^ 64`, the
release-build wrap-around semantics — a debug build would panic at the
wrap instead).  The wall clock
`Utc::now()` is passed in as an explicit `now : Int` parameter (the two
consecutive `Utc::now()` calls of `collect_options_from_args` are modelled
as a single instant).  The FFI argument array is modelled as the
`List String` its `collect_strings_from_raw` helper produces.  External
crates that the sources call (`regex` on the one fixed pattern, `base64`
version 0.13 decoding, `serde_json` parsing of a JSON document, UTF-8
validation of `String::from_utf8`) are translated here as executable Lean
functions faithful to their documented behaviour on the inputs the
repository feeds them; deviations are noted at each definition.
-/

/-! ## SQLite status codes (src/soracom_harvest_sqlite_extension/src/sqlite3ext.rs) -/

def SQLITE_OK : Int := 0

def SQLITE_ERROR : Int := 1

/-! ## Characters that the hard rules keep out of literals -/

/-- The character `0x7B` (left curly bracket). -/
def lbraceC : Char := Char.ofNat 0x7B

/-- The character `0x7D` (right curly bracket). -/
def rbraceC : Char := Char.ofNat 0x7D

/-! ## ASCII helpers -/

/-- ASCII lower-casing of one character.  Models Rust `to_lowercase` on the
inputs the repository compares against (the pure-ASCII keywords `g`,
`global`, `jp`, `japan` and the option keys); Rust's method is
Unicode-aware but no Unicode-only mapping can produce those keywords. -/
def asciiLowerChar (c : Char) : Char :=
  if 'A' ≤ c ∧ c ≤ 'Z' then Char.ofNat (c.toNat + 32) else c

/-- ASCII lower-casing of a string (see `asciiLowerChar`). -/
def asciiLower (s : String) : String :=
  String.mk (s.data.map asciiLowerChar)

/-- ASCII decimal digit test. -/
def isDigitChar (c : Char) : Bool :=
  '0' ≤ c && c ≤ '9'

/-! ## Endpoint (src/soracom_harvest_api_client/src/endpoint.rs) -/

/-- Coverage endpoint, `enum Endpoint`. -/
inductive Endpoint where
  | Global
  | Japan
deriving DecidableEq

/-- `impl From<&str> for Endpoint`: lower-case, then `"g" | "global"` is
Global, `"jp" | "japan"` is Japan, anything else falls back to Global. -/
def Endpoint.fromStr (s : String) : Endpoint :=
  let l := asciiLower s
  if l = "g" ∨ l = "global" then .Global
  else if l = "jp" ∨ l = "japan" then .Japan
  else .Global

/-! ## Rust integer parsing (`str::parse` for `i64` and `u32`) -/

/-- Numeric value of a decimal digit list, most significant first. -/
def digitsVal (ds : List Char) : Nat :=
  ds.foldl (fun a c => a * 10 + (c.toNat - 48)) 0

/-- Rust `"…".parse::<i64>()`: optional `+`/`-` sign, then one or more
ASCII digits and nothing else; the value must fit in a signed 64-bit
integer. -/
def parseI64 (s : String) : Option Int :=
  let (neg, ds) :=
    match s.data with
    | '+' :: rest => (false, rest)
    | '-' :: rest => (true, rest)
    | cs => (false, cs)
  if ds ≠ [] ∧ ds.all isDigitChar then
    let n := digitsVal ds
    if neg then
      if n ≤ 2 ^ 63 then some (-(n : Int)) else none
    else
      if n ≤ 2 ^ 63 - 1 then some (n : Int) else none
  else none

/-- Rust `"…".parse::<u32>()`: optional `+` sign (a `-` is rejected for
unsigned types), then one or more ASCII digits and nothing else; the value
must fit in an unsigned 32-bit integer. -/
def parseU32 (s : String) : Option Nat :=
  let ds :=
    match s.data with
    | '+' :: rest => rest
    | cs => cs
  if ds ≠ [] ∧ ds.all isDigitChar then
    let n := digitsVal ds
    if n ≤ 2 ^ 32 - 1 then some n else none
  else none

/-! ## Creation-argument grammar
(src/soracom_harvest_sqlite_extension/src/module_arguments_parser.rs)

The one regular expression of `parse_option` is
`(?i)^(IMSI|COVERAGE|FROM|TO|LIMIT)\s+[quote]([^quote]+)[quote]$` where
`[quote]` stands for the class holding the apostrophe and the double
quote.  None of the five keywords is a prefix of another, so the
alternation is deterministic; `\s` is modelled by its ASCII subset (the
Unicode-only white-space characters never border the keywords in any
input the claims quantify over). -/

/-- The recognized option keys. -/
inductive OptionKey where
  | imsi
  | coverage
  | fromMs
  | toMs
  | limit
deriving DecidableEq

/-- ASCII white space, the `\s` class of the pattern restricted to ASCII. -/
def isRegexWs (c : Char) : Bool :=
  c = ' ' || c = '\t' || c = '\n' || c = '\r' || c = '\x0b' || c = '\x0c'

/-- The quote class of the pattern: apostrophe or double quote. -/
def isQuoteChar (c : Char) : Bool :=
  c = '\x27' || c = '"'

/-- Case-insensitive keyword stripping: if `ks` (lower-case keyword) is a
case-insensitive front segment of `cs`, return the remainder. -/
def stripCI : List Char → List Char → Option (List Char)
  | [], cs => some cs
  | _ :: _, [] => none
  | k :: ks, c :: cs => if asciiLowerChar c = k then stripCI ks cs else none

/-- Match one of the five keys at the front of the argument,
case-insensitively, returning the key and the remainder. -/
def matchKey (cs : List Char) : Option (OptionKey × List Char) :=
  match stripCI "imsi".data cs with
  | some rest => some (.imsi, rest)
  | none =>
  match stripCI "coverage".data cs with
  | some rest => some (.coverage, rest)
  | none =>
  match stripCI "from".data cs with
  | some rest => some (.fromMs, rest)
  | none =>
  match stripCI "to".data cs with
  | some rest => some (.toMs, rest)
  | none =>
  match stripCI "limit".data cs with
  | some rest => some (.limit, rest)
  | none => none

/-- Full anchored match of the argument grammar: key, at least one white
space, a quote, one or more non-quote characters, a quote, end of input.
Returns the key and the captured value. -/
def matchArgument (cs : List Char) : Option (OptionKey × String) :=
  match matchKey cs with
  | none => none
  | some (k, rest) =>
    match rest with
    | [] => none
    | w :: rest1 =>
      if isRegexWs w then
        match rest1.dropWhile isRegexWs with
        | [] => none
        | q :: rest2 =>
          if isQuoteChar q then
            let v := rest2.takeWhile (fun c => !(isQuoteChar c))
            match rest2.drop v.length with
            | [q2] => if isQuoteChar q2 && !v.isEmpty then some (k, String.mk v) else none
            | _ => none
          else none
      else none

/-- `enum ModuleArgument` of the argument parser module. -/
inductive ModuleArgument where
  | Imsi (s : String)
  | Coverage (e : Endpoint)
  | From (i : Int)
  | To (i : Int)
  | Limit (u : Nat)
deriving DecidableEq

/-- `enum ArgumentError` (src/soracom_harvest_sqlite_extension/src/error.rs). -/
inductive ArgumentError where
  | NoImsi
  | InvalidFrom
  | InvalidTo
  | InvalidLimit
  | UnknownOption
deriving DecidableEq

/-- Rendered `thiserror` message of an `ArgumentError`. -/
def ArgumentError.message : ArgumentError → String
  | .NoImsi => "No IMSI is provided"
  | .InvalidFrom => "Invalid 'from' is provided"
  | .InvalidTo => "Invalid 'to' is provided"
  | .InvalidLimit => "Invalid 'limit' is provided. It should be from 1 to 1000"
  | .UnknownOption => "Unknown option is provided"

/-- `parse_option`: match the regex, then dispatch on the (lower-cased)
key; `FROM`/`TO` values must parse as `i64`, `LIMIT` values as `u32`;
a failed regex match is `UnknownOption`. -/
def parse_option (input : String) : Except ArgumentError ModuleArgument :=
  match matchArgument input.data with
  | none => .error .UnknownOption
  | some (k, v) =>
    match k with
    | .imsi => .ok (.Imsi v)
    | .coverage => .ok (.Coverage (Endpoint.fromStr v))
    | .fromMs =>
      match parseI64 v with
      | some i => .ok (.From i)
      | none => .error .InvalidFrom
    | .toMs =>
      match parseI64 v with
      | some i => .ok (.To i)
      | none => .error .InvalidTo
    | .limit =>
      match parseU32 v with
      | some u => .ok (.Limit u)
      | none => .error .InvalidLimit

/-- Mutable scan state of `collect_options_from_args` (the five local
variables `imsi`, `endpoint`, `from`, `to`, `limit`). -/
structure ArgState where
  imsi : String
  endpoint : Endpoint
  fromMs : Int
  toMs : Int
  limit : Nat
deriving DecidableEq

/-- One iteration of the argument loop: `if let Ok(option) = parse_option(…)`
updates the matching field, every error is silently skipped. -/
def apply_option (st : ArgState) (arg : String) : ArgState :=
  match parse_option arg with
  | .ok (.Imsi s) => { st with imsi := s }
  | .ok (.Coverage e) => { st with endpoint := e }
  | .ok (.From i) => { st with fromMs := i }
  | .ok (.To i) => { st with toMs := i }
  | .ok (.Limit u) => { st with limit := u }
  | .error _ => st

/-- `collect_options_from_args`: scan all arguments leniently, then apply
the post-scan checks in source order.  `now` stands for
`Utc::now().timestamp_millis()`; `Duration::days(1)` is 86400000 ms.  The
final bound check is the literal source condition
`limit < 1 && limit > 1000`. -/
def collect_options_from_args (now : Int) (args : List String) :
    Except ArgumentError (String × Endpoint × Int × Int × Nat) :=
  let st := args.foldl apply_option ⟨"", .Global, 0, 0, 100⟩
  if st.imsi = "" then .error .NoImsi
  else
    let f := if st.fromMs = 0 then now - 86400000 else st.fromMs
    let t := if st.toMs = 0 then now else st.toMs
    if st.limit < 1 ∧ st.limit > 1000 then .error .InvalidLimit
    else .ok (st.imsi, st.endpoint, f, t, st.limit)

/-! ## Data entries and the row cursor
(src/soracom_harvest_api_client/src/client.rs `struct Data`,
src/soracom_harvest_sqlite_extension/src/harvest_data_client.rs) -/

/-- `struct Data`: one Harvest entry. -/
structure Data where
  time : Int
  content_type : String
  content : String
deriving DecidableEq

/-- `struct HarvestDataReader`: the snapshot plus a cursor position. -/
structure HarvestDataReader where
  data : List Data
  current_index : Nat
deriving DecidableEq

/-- `HarvestDataReader::new`: fresh reader at index 0. -/
def HarvestDataReader.new (data : List Data) : HarvestDataReader :=
  { data := data, current_index := 0 }

/-- `get_index`: `self.current_index as u32`. -/
def HarvestDataReader.get_index (r : HarvestDataReader) : Nat :=
  r.current_index % 2 ^ 32

/-- `move_next`: `self.current_index += 1` on a `usize`, which wraps to 0
at `2 ^ 64` in a release build (a debug build would panic there); the
wrap-around semantics is modelled as addition modulo `2 ^ 64`. -/
def HarvestDataReader.move_next (r : HarvestDataReader) : HarvestDataReader :=
  { r with current_index := (r.current_index + 1) % 2 ^ 64 }

/-- `has_value`: `self.data.get(self.current_index).is_some()`. -/
def HarvestDataReader.has_value (r : HarvestDataReader) : Bool :=
  r.current_index < r.data.length

/-- `get_value`: out of range gives the empty string, otherwise ordinal 0
is `time` printed in decimal, 1 is `content_type`, everything else is
`content`. -/
def HarvestDataReader.get_value (r : HarvestDataReader) (i : Nat) : String :=
  match r.data.get? r.current_index with
  | none => ""
  | some d =>
    match i with
    | 0 => toString d.time
    | 1 => d.content_type
    | _ => d.content

/-- Iterated `move_next`. -/
def advanceN (r : HarvestDataReader) : Nat → HarvestDataReader
  | 0 => r
  | k + 1 => (advanceN r k).move_next

/-! ## Lifecycle callbacks on an open cursor
(src/soracom_harvest_sqlite_extension/src/module.rs) -/

/-- `shsqlite_filter`: the body ignores every parameter (index number,
index string, filter arguments and the cursor itself) and returns
`SQLITE_OK`; the cursor is handed back unchanged. -/
def shsqlite_filter (cursor : HarvestDataReader) (_idxNum : Int)
    (_idxStr : Option String) (_argc : Nat) : Int × HarvestDataReader :=
  (SQLITE_OK, cursor)

/-- `shsqlite_next`: advance the reader, return `SQLITE_OK`. -/
def shsqlite_next (cursor : HarvestDataReader) : Int × HarvestDataReader :=
  (SQLITE_OK, cursor.move_next)

/-- `shsqlite_eof`: 0 while `has_value`, 1 otherwise. -/
def shsqlite_eof (cursor : HarvestDataReader) : Int :=
  if cursor.has_value then 0 else 1

/-- A value handed to the engine: either `result_int64` or `result_text`. -/
inductive CellValue where
  | int (i : Int)
  | text (s : String)
deriving DecidableEq

/-- `yield_cell_value`: `value.parse::<i64>()` decides between an integer
cell and a text cell. -/
def yield_cell_value (value : String) : CellValue :=
  match parseI64 value with
  | some i => .int i
  | none => .text value

/-- `shsqlite_column`: `yield_cell_value(reader.get_value(column))`. -/
def shsqlite_column (cursor : HarvestDataReader) (column : Nat) : CellValue :=
  yield_cell_value (cursor.get_value column)

/-- `shsqlite_rowid`: `reader.get_index() as c_longlong`. -/
def shsqlite_rowid (cursor : HarvestDataReader) : Int :=
  (cursor.get_index : Int)

/-! ## Base64 (the `base64` crate, version 0.13, standard alphabet)

`try_decode` calls `base64::decode`, the standard-alphabet decoder whose
config forbids non-zero trailing bits and accepts canonical `=` padding
of the final quantum (an unpadded final quantum of two or three symbols
is also accepted).  The repository's own unit test pins this behaviour:
`aGVsbG8=` decodes to `hello` and `aGVsbG` is rejected.  Bytes are `Nat`
values below 256. -/

/-- Value of one standard-alphabet symbol; `=` is not a symbol. -/
def b64CharVal (c : Char) : Option Nat :=
  if 'A' ≤ c ∧ c ≤ 'Z' then some (c.toNat - 65)
  else if 'a' ≤ c ∧ c ≤ 'z' then some (c.toNat - 71)
  else if '0' ≤ c ∧ c ≤ '9' then some (c.toNat + 4)
  else if c = '+' then some 62
  else if c = '/' then some 63
  else none

/-- Symbol of one 6-bit value (value below 64). -/
def b64ValChar (n : Nat) : Char :=
  if n < 26 then Char.ofNat (65 + n)
  else if n < 52 then Char.ofNat (71 + n)
  else if n < 62 then Char.ofNat (n - 4)
  else if n = 62 then '+'
  else '/'

/-- Decode a final quantum of two symbols (one byte); the four unused
bits must be zero. -/
def b64DecTail2 (c1 c2 : Char) : Option (List Nat) :=
  match b64CharVal c1, b64CharVal c2 with
  | some a, some b => if b % 16 = 0 then some [a * 4 + b / 16] else none
  | _, _ => none

/-- Decode a final quantum of three symbols (two bytes); the two unused
bits must be zero. -/
def b64DecTail3 (c1 c2 c3 : Char) : Option (List Nat) :=
  match b64CharVal c1, b64CharVal c2, b64CharVal c3 with
  | some a, some b, some c =>
    if c % 4 = 0 then some [a * 4 + b / 16, b % 16 * 16 + c / 4] else none
  | _, _, _ => none

/-- Decode the final group of at most four symbols, honouring `=`
padding; a single leftover symbol is invalid. -/
def b64DecodeTail : List Char → Option (List Nat)
  | [] => some []
  | [c1, c2] => b64DecTail2 c1 c2
  | [c1, c2, c3] => b64DecTail3 c1 c2 c3
  | [c1, c2, c3, c4] =>
    if c4 = '=' then
      if c3 = '=' then b64DecTail2 c1 c2 else b64DecTail3 c1 c2 c3
    else
      match b64CharVal c1, b64CharVal c2, b64CharVal c3, b64CharVal c4 with
      | some a, some b, some c, some d =>
        some [a * 4 + b / 16, b % 16 * 16 + c / 4, c % 4 * 64 + d]
      | _, _, _, _ => none
  | _ => none

/-- Decode a symbol stream: full four-symbol groups, then the final
group; `=` anywhere before the final group fails (`b64CharVal` rejects
it). -/
def base64DecodeGroups : List Char → Option (List Nat)
  | c1 :: c2 :: c3 :: c4 :: r :: rs =>
    (match b64CharVal c1, b64CharVal c2, b64CharVal c3, b64CharVal c4 with
     | some a, some b, some c, some d =>
       match base64DecodeGroups (r :: rs) with
       | some tl =>
         some ((a * 4 + b / 16) :: (b % 16 * 16 + c / 4) :: (c % 4 * 64 + d) :: tl)
       | none => none
     | _, _, _, _ => none)
  | cs => b64DecodeTail cs

/-- `base64::decode` on a payload string (base64 symbols are ASCII, so
characters and bytes coincide). -/
def base64Decode (s : String) : Option (List Nat) :=
  base64DecodeGroups s.data

/-- Canonical RFC 4648 encoding with `=` padding — the meaning of
"base64(s)" in the round-trip property. -/
def base64EncodeList : List Nat → List Char
  | [] => []
  | [b1] => [b64ValChar (b1 / 4), b64ValChar (b1 % 4 * 16), '=', '=']
  | [b1, b2] =>
    [b64ValChar (b1 / 4), b64ValChar (b1 % 4 * 16 + b2 / 16), b64ValChar (b2 % 16 * 4), '=']
  | b1 :: b2 :: b3 :: rest =>
    b64ValChar (b1 / 4) :: b64ValChar (b1 % 4 * 16 + b2 / 16) ::
      b64ValChar (b2 % 16 * 4 + b3 / 64) :: b64ValChar (b3 % 64) :: base64EncodeList rest

/-! ## UTF-8 validation (`String::from_utf8`)

Standard UTF-8 decoding: 1- to 4-byte sequences, continuation bytes in
`0x80..0xBF`, overlong encodings, surrogates and code points above
`0x10FFFF` rejected. -/

/-- Byte-level UTF-8 validation automaton: `need` continuation bytes are
still expected, `cp` is the partial code point, `lo`/`hi` bound the next
continuation byte (tightened after the lead bytes `0xE0`, `0xED`, `0xF0`
and `0xF4` to exclude overlong forms, surrogates and code points above
`0x10FFFF`; later continuation bytes use `0x80..0xBF`).  This is the
standard shortest-form UTF-8 acceptor, the validation `String::from_utf8`
performs. -/
def utf8Run : List Nat → Nat → Nat → Nat → Nat → Option (List Char)
  | [], need, _, _, _ => if need = 0 then some [] else none
  | b :: rest, 0, _, _, _ =>
    if b < 0x80 then Option.map (fun cs => Char.ofNat b :: cs) (utf8Run rest 0 0 0 0)
    else if b < 0xC2 then none
    else if b ≤ 0xDF then utf8Run rest 1 (b - 0xC0) 0x80 0xBF
    else if b ≤ 0xEF then
      utf8Run rest 2 (b - 0xE0) (if b = 0xE0 then 0xA0 else 0x80)
        (if b = 0xED then 0x9F else 0xBF)
    else if b ≤ 0xF4 then
      utf8Run rest 3 (b - 0xF0) (if b = 0xF0 then 0x90 else 0x80)
        (if b = 0xF4 then 0x8F else 0xBF)
    else none
  | b :: rest, need + 1, cp, lo, hi =>
    if lo ≤ b ∧ b ≤ hi then
      if need = 0 then
        Option.map (fun cs => Char.ofNat (cp * 64 + (b - 0x80)) :: cs) (utf8Run rest 0 0 0 0)
      else utf8Run rest need (cp * 64 + (b - 0x80)) 0x80 0xBF
    else none

/-- Decode a byte list as UTF-8 text (`String::from_utf8`), or fail. -/
def utf8Decode (bs : List Nat) : Option (List Char) :=
  utf8Run bs 0 0 0 0

/-! ## JSON parsing (`serde_json::from_str::<Base64EncodedPayload>`)

A standard JSON document parser, executable and fuel-bounded (the fuel,
one more than the input length, always suffices because every recursion
step first consumes input).  `Base64EncodedPayload` derives a plain serde
`Deserialize`, so the document must be an object, unknown fields are
ignored, a duplicate `payload` field is an error and the `payload` value
must be a string.  (serde's exotic struct-from-sequence encoding is not
modelled; none of the properties below quantifies over it.) -/

/-- Parsed JSON values; numbers keep their source text, which the
claims never inspect. -/
inductive JsonValue where
  | null
  | bool (b : Bool)
  | num (raw : String)
  | str (s : String)
  | arr (xs : List JsonValue)
  | obj (kvs : List (String × JsonValue))

/-- JSON insignificant white space. -/
def isJsonWs (c : Char) : Bool :=
  c = ' ' || c = '\t' || c = '\n' || c = '\r'

/-- Drop leading JSON white space. -/
def jsonSkipWs (cs : List Char) : List Char :=
  cs.dropWhile isJsonWs

/-- Value of a hexadecimal digit. -/
def hexVal (c : Char) : Option Nat :=
  if '0' ≤ c ∧ c ≤ '9' then some (c.toNat - 48)
  else if 'a' ≤ c ∧ c ≤ 'f' then some (c.toNat - 87)
  else if 'A' ≤ c ∧ c ≤ 'F' then some (c.toNat - 55)
  else none

/-- Single-character JSON escapes. -/
def escCharOf (e : Char) : Option Char :=
  if e = '"' then some '"'
  else if e = '\\' then some '\\'
  else if e = '/' then some '/'
  else if e = 'b' then some (Char.ofNat 0x08)
  else if e = 'f' then some (Char.ofNat 0x0C)
  else if e = 'n' then some '\n'
  else if e = 'r' then some (Char.ofNat 0x0D)
  else if e = 't' then some '\t'
  else none

/-- Decode one JSON escape sequence (the input starts right after the
backslash): either a single-character escape or `\uXXXX`, where a high
surrogate must be followed by `\u` and a low surrogate (combined into one
code point) and a lone low surrogate is rejected.  Returns the decoded
character and the remaining input. -/
def parseEscape : List Char → Option (Char × List Char)
  | [] => none
  | e :: rest =>
    if e = 'u' then
      match rest with
      | h1 :: h2 :: h3 :: h4 :: rest2 =>
        match hexVal h1, hexVal h2, hexVal h3, hexVal h4 with
        | some a, some b, some c2, some d =>
          let n := a * 4096 + b * 256 + c2 * 16 + d
          if 0xD800 ≤ n ∧ n ≤ 0xDBFF then
            match rest2 with
            | '\\' :: 'u' :: k1 :: k2 :: k3 :: k4 :: rest3 =>
              match hexVal k1, hexVal k2, hexVal k3, hexVal k4 with
              | some a2, some b2, some c3, some d2 =>
                let m := a2 * 4096 + b2 * 256 + c3 * 16 + d2
                if 0xDC00 ≤ m ∧ m ≤ 0xDFFF then
                  some (Char.ofNat (0x10000 + (n - 0xD800) * 1024 + (m - 0xDC00)), rest3)
                else none
              | _, _, _, _ => none
            | _ => none
          else if 0xDC00 ≤ n ∧ n ≤ 0xDFFF then none
          else some (Char.ofNat n, rest2)
        | _, _, _, _ => none
      | _ => none
    else
      match escCharOf e with
      | some ec => some (ec, rest)
      | none => none

/-- Parse the body of a JSON string literal (after the opening quote) up
to and including the closing quote: unescaped control characters are
rejected, escapes are decoded by `parseEscape`.  The fuel (one more than
the input length always suffices, every step consuming at least one
character) only bounds the recursion. -/
def parseStringBody : Nat → List Char → Option (List Char × List Char)
  | 0, _ => none
  | _ + 1, [] => none
  | fuel + 1, c :: rest =>
    if c = '"' then some ([], rest)
    else if c = '\\' then
      match parseEscape rest with
      | some (ec, rest2) =>
        Option.map (fun vr => (ec :: vr.1, vr.2)) (parseStringBody fuel rest2)
      | none => none
    else if c.toNat < 0x20 then none
    else Option.map (fun vr => (c :: vr.1, vr.2)) (parseStringBody fuel rest)

/-- Exponent part of a JSON number (and the exit point when no fraction
or exponent follows). -/
def parseNumExp (acc : List Char) (cs : List Char) : Option (JsonValue × List Char) :=
  match cs with
  | e :: r =>
    if e = 'e' ∨ e = 'E' then
      let (sg, r1) :=
        match r with
        | '+' :: rr => (['+'], rr)
        | '-' :: rr => (['-'], rr)
        | _ => (([] : List Char), r)
      let ds := r1.takeWhile isDigitChar
      if ds = [] then none
      else some (.num (String.mk (acc ++ e :: sg ++ ds)), r1.drop ds.length)
    else some (.num (String.mk acc), cs)
  | [] => some (.num (String.mk acc), cs)

/-- Optional fraction part of a JSON number. -/
def parseNumTail (acc : List Char) (cs : List Char) : Option (JsonValue × List Char) :=
  match cs with
  | '.' :: r =>
    let ds := r.takeWhile isDigitChar
    if ds = [] then none else parseNumExp (acc ++ '.' :: ds) (r.drop ds.length)
  | _ => parseNumExp acc cs

/-- JSON number: optional minus, integer part without leading zeros,
optional fraction and exponent. -/
def parseNumber (cs : List Char) : Option (JsonValue × List Char) :=
  let (sgn, cs1) :=
    match cs with
    | '-' :: r => ((['-'] : List Char), r)
    | _ => (([] : List Char), cs)
  match cs1 with
  | [] => none
  | c :: r =>
    if c = '0' then parseNumTail (sgn ++ [c]) r
    else if '1' ≤ c ∧ c ≤ '9' then
      let ds := r.takeWhile isDigitChar
      parseNumTail (sgn ++ c :: ds) (r.drop ds.length)
    else none

/-- The literal `true` (after its leading `t`). -/
def parseTrueLit (rest : List Char) : Option (JsonValue × List Char) :=
  match rest with
  | 'r' :: 'u' :: 'e' :: r2 => some (.bool true, r2)
  | _ => none

/-- The literal `false` (after its leading `f`). -/
def parseFalseLit (rest : List Char) : Option (JsonValue × List Char) :=
  match rest with
  | 'a' :: 'l' :: 's' :: 'e' :: r2 => some (.bool false, r2)
  | _ => none

/-- The literal `null` (after its leading `n`). -/
def parseNullLit (rest : List Char) : Option (JsonValue × List Char) :=
  match rest with
  | 'u' :: 'l' :: 'l' :: r2 => some (.null, r2)
  | _ => none

/-- Recursion mode of the fuel-bounded JSON parser: a value, the member
list of an object (wrapped as `.obj`), or the element list of an array
(wrapped as `.arr`). -/
inductive PMode where
  | value
  | members
  | elements

/-- The JSON document parser.  `parseJ fuel .value cs` parses one value
at the front of `cs` (no leading white space); the `members`/`elements`
modes expect their input after the opening bracket and any white space,
with the empty-container case already dispatched. -/
def parseJ : Nat → PMode → List Char → Option (JsonValue × List Char)
  | 0, _, _ => none
  | fuel + 1, .value, cs =>
    match cs with
    | [] => none
    | c :: rest =>
      if c = lbraceC then
        match jsonSkipWs rest with
        | [] => none
        | c2 :: r2 =>
          if c2 = rbraceC then some (.obj [], r2)
          else parseJ fuel .members (c2 :: r2)
      else if c = '[' then
        match jsonSkipWs rest with
        | [] => none
        | c2 :: r2 =>
          if c2 = ']' then some (.arr [], r2)
          else parseJ fuel .elements (c2 :: r2)
      else if c = '"' then
        match parseStringBody (rest.length + 1) rest with
        | some (sv, r2) => some (.str (String.mk sv), r2)
        | none => none
      else if c = 't' then parseTrueLit rest
      else if c = 'f' then parseFalseLit rest
      else if c = 'n' then parseNullLit rest
      else if c = '-' ∨ isDigitChar c then parseNumber cs
      else none
  | fuel + 1, .members, cs =>
    match cs with
    | '"' :: rest =>
      (match parseStringBody (rest.length + 1) rest with
       | none => none
       | some (key, r1) =>
         match jsonSkipWs r1 with
         | ':' :: r2 =>
           (match parseJ fuel .value (jsonSkipWs r2) with
            | none => none
            | some (v, r3) =>
              match jsonSkipWs r3 with
              | [] => none
              | c4 :: r4 =>
                if c4 = ',' then
                  match parseJ fuel .members (jsonSkipWs r4) with
                  | some (.obj kvs, r5) => some (.obj ((String.mk key, v) :: kvs), r5)
                  | _ => none
                else if c4 = rbraceC then some (.obj [(String.mk key, v)], r4)
                else none)
         | _ => none)
    | _ => none
  | fuel + 1, .elements, cs =>
    match parseJ fuel .value cs with
    | none => none
    | some (v, r1) =>
      match jsonSkipWs r1 with
      | [] => none
      | c2 :: r2 =>
        if c2 = ',' then
          match parseJ fuel .elements (jsonSkipWs r2) with
          | some (.arr vs, r3) => some (.arr (v :: vs), r3)
          | _ => none
        else if c2 = ']' then some (.arr [v], r2)
        else none

/-- `serde_json::from_str` on a whole document: optional white space, one
value, optional white space, end of input. -/
def parseJson (s : String) : Option JsonValue :=
  match parseJ (s.data.length + 1) .value (jsonSkipWs s.data) with
  | some (v, rest) => if jsonSkipWs rest = [] then some v else none
  | none => none

/-- `serde_json::from_str::<Base64EncodedPayload>`: the document must be
an object with exactly one `payload` member (unknown fields ignored,
duplicates rejected) whose value is a string. -/
def parsePayload (s : String) : Option String :=
  match parseJson s with
  | some (.obj kvs) =>
    match kvs.filter (fun kv => kv.1 = "payload") with
    | [(_, .str p)] => some p
    | _ => none
  | _ => none

/-! ## The content decoder (src/soracom_harvest_api_client/src/client.rs) -/

/-- `SoracomHarvestClient::try_decode`: parse the content as a
`Base64EncodedPayload`, base64-decode the payload, read it as UTF-8, and
check `matches!(c as u8, 0x20..=0x7E)` for every character — the `as u8`
cast truncates the code point to its low eight bits, modelled by
`% 256`.  On success return the literal text
`LBRACE"value":"<decoded>"RBRACE`; on any failure return the content
unchanged. -/
def try_decode (content : String) : String :=
  match parsePayload content with
  | some payload =>
    (match base64Decode payload with
     | some decoded =>
       match utf8Decode decoded with
       | some chars =>
         if chars.all (fun c => 0x20 ≤ c.toNat % 256 && c.toNat % 256 ≤ 0x7E) then
           "\x7b\"value\":\"" ++ String.mk chars ++ "\"\x7d"
         else content
       | none => content
     | none => content)
  | none => content

/-- The JSON object the round-trip property feeds the decoder:
`LBRACE"payload":"<p>"RBRACE`. -/
def mkPayloadJson (p : String) : String :=
  "\x7b\"payload\":\"" ++ p ++ "\"\x7d"

/-! ## Remote errors, the data client and table creation
(src/soracom_harvest_api_client/src/error.rs,
src/soracom_harvest_sqlite_extension/src/harvest_data_client.rs,
src/soracom_harvest_sqlite_extension/src/module.rs,
src/soracom_harvest_sqlite_extension/src/error.rs) -/

/-- `enum SoracomHarvestClientError`; the `Request`/`Json` variants carry
the transparent message of the wrapped error. -/
inductive SoracomHarvestClientError where
  | Auth
  | InvalidLimit
  | Request (msg : String)
  | Json (msg : String)
deriving DecidableEq

/-- Rendered `thiserror` message (the `String::from` conversion used when
marshaling the error). -/
def SoracomHarvestClientError.message : SoracomHarvestClientError → String
  | .Auth => "Failed to authenticate with auth key ID and auth key secret given"
  | .InvalidLimit => "Invalid limit is provided. It should be from 1 to 1000"
  | .Request m => m
  | .Json m => m

/-- `error_to_sqlite3_string`: `CString::new` fails on an interior NUL
(then no message), otherwise the message is copied into a buffer from the
engine's `malloc`; a null allocation (`allocOk = false`) also yields no
message. -/
def error_to_sqlite3_string (allocOk : Bool) (err : String) : Option String :=
  if (Char.ofNat 0) ∈ err.data then none
  else if allocOk then some err else none

/-- `SoracomHarvestClient::get_data_entries` after the transport layer:
every fetched entry's content runs through `try_decode`. -/
def get_data_entries (raw : List Data) : List Data :=
  raw.map fun d => { time := d.time, content_type := d.content_type,
                     content := try_decode d.content }

/-- `struct HarvestDataClient` as stored behind the table handle after a
successful `open`: the configuration fields and the fetched, decoded
snapshot (the credential strings of the inner `SoracomHarvestClient` are
opaque and omitted; its endpoint is kept). -/
structure HarvestDataClient where
  endpoint : Endpoint
  data : List Data
  imsi : String
  fromMs : Int
  toMs : Int
  limit : Nat
deriving DecidableEq

/-- The state `shsqlite_create` leaves behind: the returned status code,
the message written through `pz_err` (if any), and the table handle
stored through `pp_vtab` (if any). -/
structure CreateResult where
  status : Int
  errMsg : Option String
  table : Option HarvestDataClient
deriving DecidableEq

/-- `shsqlite_create` (and `shsqlite_connect`, which forwards to it):
parse the arguments; on success run the one-time fetch, modelled by the
`remote` outcome of the transport round-trip (the raw entry list before
decoding, or the client error).  A parse failure returns `SQLITE_ERROR`
and nothing else; a fetch failure returns `SQLITE_ERROR` and marshals the
error message; success declares the table (its engine status is
`declareStatus`) and stores the handle.  The environment-credential
lookup that precedes parsing is assumed to succeed (on failure the Rust
code panics before reaching any of the modelled behaviour). -/
def shsqlite_create (now : Int) (args : List String)
    (remote : Except SoracomHarvestClientError (List Data))
    (allocOk : Bool) (declareStatus : Int) : CreateResult :=
  match collect_options_from_args now args with
  | .error _ => { status := SQLITE_ERROR, errMsg := none, table := none }
  | .ok (imsi, ep, f, t, lim) =>
    match remote with
    | .error e =>
      { status := SQLITE_ERROR, errMsg := error_to_sqlite3_string allocOk e.message,
        table := none }
    | .ok raw =>
      { status := declareStatus, errMsg := none,
        table := some { endpoint := ep, data := get_data_entries raw,
                        imsi := imsi, fromMs := f, toMs := t, limit := lim } }

/-- `shsqlite_connect` forwards every argument to `shsqlite_create`. -/
def shsqlite_connect (now : Int) (args : List String)
    (remote : Except SoracomHarvestClientError (List Data))
    (allocOk : Bool) (declareStatus : Int) : CreateResult :=
  shsqlite_create now args remote allocOk declareStatus

/-- Decidable form of "this argument does not match the IMSI grammar",
used to state the required-field property. -/
def noImsiArg (arg : String) : Bool :=
  match matchArgument arg.data with
  | some (.imsi, _) => false
  | _ => true

/-! ## General lemmas about the embedding -/

theorem advanceN_data (r : HarvestDataReader) (k : Nat) :
    (advanceN r k).data = r.data := by
  induction k with
  | zero => rfl
  | succ k ih => simp [advanceN, HarvestDataReader.move_next, ih]

theorem advanceN_index (r : HarvestDataReader) (k : Nat)
    (h : r.current_index < 2 ^ 64) :
    (advanceN r k).current_index = (r.current_index + k) % 2 ^ 64 := by
  induction k with
  | zero => simp [advanceN]; omega
  | succ k ih => simp [advanceN, HarvestDataReader.move_next, ih]; omega

theorem apply_option_imsi (st : ArgState) (arg : String)
    (h : noImsiArg arg = true) : (apply_option st arg).imsi = st.imsi := by
  unfold noImsiArg at h
  unfold apply_option parse_option
  rcases hm : matchArgument arg.data with _ | ⟨k, v⟩
  · simp
  · rw [hm] at h
    cases k
    · simp at h
    · simp
    · rcases h2 : parseI64 v with _ | i <;> simp [h2]
    · rcases h2 : parseI64 v with _ | i <;> simp [h2]
    · rcases h2 : parseU32 v with _ | u <;> simp [h2]

theorem foldl_imsi_unchanged (args : List String) (st : ArgState)
    (h : ∀ arg ∈ args, noImsiArg arg = true) :
    (args.foldl apply_option st).imsi = st.imsi := by
  induction args generalizing st with
  | nil => rfl
  | cons a as ih =>
    rw [List.foldl_cons, ih _ (fun x hx => h x (List.mem_cons_of_mem a hx)),
      apply_option_imsi st a (h a (List.mem_cons_self a as))]

theorem string_data_append (a b : String) : (a ++ b).data = a.data ++ b.data := by
  cases a; cases b; rfl

theorem jsonSkipWs_cons (c : Char) (cs : List Char) (h : isJsonWs c = false) :
    jsonSkipWs (c :: cs) = c :: cs := by
  simp [jsonSkipWs, List.dropWhile, h]

theorem parseStringBody_verbatim (xs : List Char) :
    ∀ (fuel : Nat) (rest : List Char), xs.length < fuel →
    (∀ c ∈ xs, c ≠ '"' ∧ c ≠ '\\' ∧ 0x20 ≤ c.toNat) →
    parseStringBody fuel (xs ++ '"' :: rest) = some (xs, rest) := by
  induction xs with
  | nil =>
    intro fuel rest hf _
    match fuel, hf with
    | f + 1, _ =>
      rw [List.nil_append, parseStringBody, if_pos rfl]
  | cons c xs ih =>
    intro fuel rest hf hcond
    have hc := hcond c (List.mem_cons_self c xs)
    match fuel, hf with
    | f + 1, hf =>
      rw [List.cons_append, parseStringBody, if_neg hc.1, if_neg hc.2.1,
        if_neg (by omega : ¬ c.toNat < 0x20),
        ih f rest (by simpa using hf) (fun x hx => hcond x (List.mem_cons_of_mem c hx))]
      rfl

theorem parseJ_payload_object (f : Nat) (p : String)
    (hp : ∀ c ∈ p.data, c ≠ '"' ∧ c ≠ '\\' ∧ 0x20 ≤ c.toNat) :
    parseJ (f + 3) .value
        (lbraceC :: '"' :: 'p' :: 'a' :: 'y' :: 'l' :: 'o' :: 'a' :: 'd' :: '"' :: ':' :: '"' ::
          (p.data ++ ['"', rbraceC])) =
      some (.obj [("payload", .str p)], []) := by
  rw [parseJ]
  rw [if_pos rfl]
  rw [jsonSkipWs_cons _ _ (by decide)]
  dsimp only
  rw [if_neg (by decide)]
  rw [parseJ]
  rw [show ('p' :: 'a' :: 'y' :: 'l' :: 'o' :: 'a' :: 'd' :: '"' :: ':' :: '"' ::
        (p.data ++ ['"', rbraceC])) =
      ("payload".data ++ '"' :: (':' :: '"' :: (p.data ++ ['"', rbraceC]))) from rfl]
  rw [parseStringBody_verbatim "payload".data _ _ (by simp) (by decide)]
  dsimp only
  rw [jsonSkipWs_cons _ _ (by decide)]
  conv_lhs => whnf
  rw [jsonSkipWs_cons _ _ (by decide)]
  rw [parseJ]
  rw [if_neg (by decide), if_neg (by decide), if_pos rfl]
  rw [show (p.data ++ ['"', rbraceC]) = (p.data ++ '"' :: [rbraceC]) from rfl]
  rw [parseStringBody_verbatim p.data _ _ (by simp; omega) hp]
  dsimp only
  rw [jsonSkipWs_cons _ _ (by decide)]
  conv_lhs => whnf

theorem mkPayloadJson_data (p : String) : (mkPayloadJson p).data =
    lbraceC :: '"' :: 'p' :: 'a' :: 'y' :: 'l' :: 'o' :: 'a' :: 'd' :: '"' :: ':' :: '"' ::
      (p.data ++ ['"', rbraceC]) := by
  show ("\x7b\"payload\":\"" ++ p ++ "\"\x7d").data = _
  rw [string_data_append, string_data_append, List.append_assoc]
  rfl

theorem parsePayload_mkPayloadJson (p : String)
    (hp : ∀ c ∈ p.data, c ≠ '"' ∧ c ≠ '\\' ∧ 0x20 ≤ c.toNat) :
    parsePayload (mkPayloadJson p) = some p := by
  unfold parsePayload parseJson
  rw [mkPayloadJson_data]
  rw [jsonSkipWs_cons _ _ (by decide)]
  have hlen :
      (lbraceC :: '"' :: 'p' :: 'a' :: 'y' :: 'l' :: 'o' :: 'a' :: 'd' :: '"' :: ':' :: '"' ::
        (p.data ++ ['"', rbraceC])).length + 1 = (p.data.length + 12) + 3 := by
    simp
  rw [hlen, parseJ_payload_object (p.data.length + 12) p hp]
  rfl

theorem b64CharVal_b64ValChar : ∀ n < 64, b64CharVal (b64ValChar n) = some n := by decide

theorem b64ValChar_props : ∀ n < 64,
    b64ValChar n ≠ '"' ∧ b64ValChar n ≠ '\\' ∧ b64ValChar n ≠ '=' ∧
    0x20 ≤ (b64ValChar n).toNat := by decide

theorem base64EncodeList_ne_nil (bs : List Nat) (h : bs ≠ []) :
    base64EncodeList bs ≠ [] := by
  match bs with
  | [] => exact absurd rfl h
  | [b1] => exact List.cons_ne_nil _ _
  | [b1, b2] => exact List.cons_ne_nil _ _
  | b1 :: b2 :: b3 :: rest => exact List.cons_ne_nil _ _

theorem b64_roundtrip (bs : List Nat) (h : ∀ b ∈ bs, b < 256) :
    base64DecodeGroups (base64EncodeList bs) = some bs := by
  induction bs using base64EncodeList.induct with
  | case1 => rfl
  | case2 b1 =>
    have h1 : b1 < 256 := h b1 (by simp)
    have hv1 := b64CharVal_b64ValChar (b1 / 4) (by omega)
    have hv2 := b64CharVal_b64ValChar (b1 % 4 * 16) (by omega)
    rw [base64EncodeList]
    rw [show base64DecodeGroups
        [b64ValChar (b1 / 4), b64ValChar (b1 % 4 * 16), '=', '='] =
      b64DecodeTail [b64ValChar (b1 / 4), b64ValChar (b1 % 4 * 16), '=', '='] from rfl]
    rw [b64DecodeTail]
    rw [if_pos rfl, if_pos rfl]
    unfold b64DecTail2
    rw [hv1, hv2]
    dsimp only
    have hz : b1 % 4 * 16 % 16 = 0 := by omega
    rw [if_pos hz]
    congr 1
    have : b1 / 4 * 4 + b1 % 4 * 16 / 16 = b1 := by omega
    rw [this]
  | case3 b1 b2 =>
    have h1 : b1 < 256 := h b1 (by simp)
    have h2 : b2 < 256 := h b2 (by simp)
    have hv1 := b64CharVal_b64ValChar (b1 / 4) (by omega)
    have hv2 := b64CharVal_b64ValChar (b1 % 4 * 16 + b2 / 16) (by omega)
    have hv3 := b64CharVal_b64ValChar (b2 % 16 * 4) (by omega)
    rw [base64EncodeList]
    rw [show base64DecodeGroups
        [b64ValChar (b1 / 4), b64ValChar (b1 % 4 * 16 + b2 / 16), b64ValChar (b2 % 16 * 4), '='] =
      b64DecodeTail
        [b64ValChar (b1 / 4), b64ValChar (b1 % 4 * 16 + b2 / 16), b64ValChar (b2 % 16 * 4), '=']
      from rfl]
    rw [b64DecodeTail]
    rw [if_pos rfl, if_neg ((b64ValChar_props (b2 % 16 * 4) (by omega)).2.2.1)]
    unfold b64DecTail3
    rw [hv1, hv2, hv3]
    dsimp only
    have hz : b2 % 16 * 4 % 4 = 0 := by omega
    rw [if_pos hz]
    congr 1
    have e1 : b1 / 4 * 4 + (b1 % 4 * 16 + b2 / 16) / 16 = b1 := by omega
    have e2 : (b1 % 4 * 16 + b2 / 16) % 16 * 16 + b2 % 16 * 4 / 4 = b2 := by omega
    rw [e1, e2]
  | case4 b1 b2 b3 rest ih =>
    have h1 : b1 < 256 := h b1 (by simp)
    have h2 : b2 < 256 := h b2 (by simp)
    have h3 : b3 < 256 := h b3 (by simp)
    have hv1 := b64CharVal_b64ValChar (b1 / 4) (by omega)
    have hv2 := b64CharVal_b64ValChar (b1 % 4 * 16 + b2 / 16) (by omega)
    have hv3 := b64CharVal_b64ValChar (b2 % 16 * 4 + b3 / 64) (by omega)
    have hv4 := b64CharVal_b64ValChar (b3 % 64) (by omega)
    have hihr := ih (fun b hb => h b (by simp [hb]))
    have e1 : b1 / 4 * 4 + (b1 % 4 * 16 + b2 / 16) / 16 = b1 := by omega
    have e2 : (b1 % 4 * 16 + b2 / 16) % 16 * 16 + (b2 % 16 * 4 + b3 / 64) / 4 = b2 := by omega
    have e3 : (b2 % 16 * 4 + b3 / 64) % 4 * 64 + b3 % 64 = b3 := by omega
    rw [base64EncodeList]
    rcases hre : base64EncodeList rest with _ | ⟨r0, rs0⟩
    · have hrest_nil : rest = [] := by
        by_contra hne
        exact base64EncodeList_ne_nil rest hne hre
      subst hrest_nil
      rw [show base64DecodeGroups
          [b64ValChar (b1 / 4), b64ValChar (b1 % 4 * 16 + b2 / 16),
           b64ValChar (b2 % 16 * 4 + b3 / 64), b64ValChar (b3 % 64)] =
        b64DecodeTail
          [b64ValChar (b1 / 4), b64ValChar (b1 % 4 * 16 + b2 / 16),
           b64ValChar (b2 % 16 * 4 + b3 / 64), b64ValChar (b3 % 64)] from rfl]
      rw [b64DecodeTail]
      rw [if_neg ((b64ValChar_props (b3 % 64) (by omega)).2.2.1)]
      rw [hv1, hv2, hv3, hv4]
      dsimp only
      rw [e1, e2, e3]
    · rw [hre] at hihr
      rw [base64DecodeGroups]
      rw [hv1, hv2, hv3, hv4]
      dsimp only
      rw [hihr]
      dsimp only
      rw [e1, e2, e3]

theorem base64EncodeList_chars (bs : List Nat) (hb : ∀ b ∈ bs, b < 256) :
    ∀ c ∈ base64EncodeList bs, c ≠ '"' ∧ c ≠ '\\' ∧ 0x20 ≤ c.toNat := by
  induction bs using base64EncodeList.induct with
  | case1 => intro c hc; exact absurd hc (List.not_mem_nil c)
  | case2 b1 =>
    have h1 : b1 < 256 := hb b1 (by simp)
    intro c hc
    rw [base64EncodeList] at hc
    simp only [List.mem_cons, List.not_mem_nil, or_false] at hc
    rcases hc with rfl | rfl | rfl | rfl
    · have := b64ValChar_props (b1 / 4) (by omega); exact ⟨this.1, this.2.1, this.2.2.2⟩
    · have := b64ValChar_props (b1 % 4 * 16) (by omega); exact ⟨this.1, this.2.1, this.2.2.2⟩
    · exact ⟨by decide, by decide, by decide⟩
    · exact ⟨by decide, by decide, by decide⟩
  | case3 b1 b2 =>
    have h1 : b1 < 256 := hb b1 (by simp)
    have h2 : b2 < 256 := hb b2 (by simp)
    intro c hc
    rw [base64EncodeList] at hc
    simp only [List.mem_cons, List.not_mem_nil, or_false] at hc
    rcases hc with rfl | rfl | rfl | rfl
    · have := b64ValChar_props (b1 / 4) (by omega); exact ⟨this.1, this.2.1, this.2.2.2⟩
    · have := b64ValChar_props (b1 % 4 * 16 + b2 / 16) (by omega)
      exact ⟨this.1, this.2.1, this.2.2.2⟩
    · have := b64ValChar_props (b2 % 16 * 4) (by omega); exact ⟨this.1, this.2.1, this.2.2.2⟩
    · exact ⟨by decide, by decide, by decide⟩
  | case4 b1 b2 b3 rest ih =>
    have h1 : b1 < 256 := hb b1 (by simp)
    have h2 : b2 < 256 := hb b2 (by simp)
    have h3 : b3 < 256 := hb b3 (by simp)
    intro c hc
    rw [base64EncodeList] at hc
    simp only [List.mem_cons] at hc
    rcases hc with rfl | rfl | rfl | rfl | hc
    · have := b64ValChar_props (b1 / 4) (by omega); exact ⟨this.1, this.2.1, this.2.2.2⟩
    · have := b64ValChar_props (b1 % 4 * 16 + b2 / 16) (by omega)
      exact ⟨this.1, this.2.1, this.2.2.2⟩
    · have := b64ValChar_props (b2 % 16 * 4 + b3 / 64) (by omega)
      exact ⟨this.1, this.2.1, this.2.2.2⟩
    · have := b64ValChar_props (b3 % 64) (by omega); exact ⟨this.1, this.2.1, this.2.2.2⟩
    · exact ih (fun b hbm => hb b (by simp [hbm])) c hc

theorem utf8Run_ascii (cs : List Char) (h : ∀ c ∈ cs, c.toNat < 0x80) :
    utf8Run (cs.map Char.toNat) 0 0 0 0 = some cs := by
  induction cs with
  | nil => rfl
  | cons c cs ih =>
    have hc : c.toNat < 0x80 := h c (List.mem_cons_self c cs)
    rw [List.map_cons, utf8Run, if_pos hc,
      ih (fun x hx => h x (List.mem_cons_of_mem c hx))]
    dsimp only [Option.map]
    rw [Char.ofNat_toNat]

/-- Claim C1: the spec demands that a LIMIT value parsing as an unsigned
integer outside 1..1000 make `collect_options_from_args` fail with
`InvalidLimit`; the code's bound check `limit < 1 && limit > 1000` is
unsatisfiable, so such configurations are returned successfully — here
both a limit of 2000 and a limit of 0 are accepted, with every argument
list carrying a valid IMSI. -/
theorem limit_bound_check_never_rejects (now : Int) :
    collect_options_from_args now
        ["IMSI \"441200000050000\"", "FROM \"1668003111681\"",
         "TO \"1668604289406\"", "LIMIT \"2000\""] =
      .ok ("441200000050000", .Global, 1668003111681, 1668604289406, 2000) ∧
    collect_options_from_args now ["IMSI \"x\"", "LIMIT \"0\""] =
      .ok ("x", .Global, now - 86400000, now, 0) := by
  exact ⟨rfl, rfl⟩

/-- Claim C2: the spec says the filter lifecycle operation resets the
cursor position to 0; the code's `shsqlite_filter` is a no-op that
returns `SQLITE_OK` and leaves every cursor unchanged, so a cursor
advanced to position 1 mid-scan still sits at position 1 after filter. -/
theorem filter_leaves_cursor_position_unchanged :
    (∀ (r : HarvestDataReader) (idxNum : Int) (idxStr : Option String) (argc : Nat),
        shsqlite_filter r idxNum idxStr argc = (SQLITE_OK, r)) ∧
    (shsqlite_filter (advanceN (HarvestDataReader.new
        [⟨1000, "application/json", "a"⟩, ⟨900, "application/json", "b"⟩]) 1)
        0 none 0).2.current_index = 1 :=
  ⟨fun _ _ _ _ => rfl, rfl⟩

/-- Claim C3 (counterexample): a creation whose argument parsing fails
(an empty argument list) returns the error status with NO error message
even though allocation succeeds, falsifying the claim that every
creation failure writes a human-readable message. -/
theorem create_parse_failure_writes_no_message :
    (shsqlite_create 0 [] (.ok []) true SQLITE_OK).status = SQLITE_ERROR ∧
    (shsqlite_create 0 [] (.ok []) true SQLITE_OK).errMsg = none ∧
    (shsqlite_create 0 [] (.ok []) true SQLITE_OK).table = none :=
  ⟨rfl, rfl, rfl⟩

/-- Claim C3 (amended): whenever table creation fails, `shsqlite_create`
returns the engine's error status and stores no table handle; a message
is marshaled through the error-message output parameter (allocation
permitting) only for remote-fetch failures, while argument-parse
failures return the bare status code with no message. -/
theorem create_failure_surfacing (now : Int) (args : List String)
    (remote : Except SoracomHarvestClientError (List Data))
    (allocOk : Bool) (ds : Int) :
    ((∃ e, collect_options_from_args now args = .error e) →
        shsqlite_create now args remote allocOk ds =
          { status := SQLITE_ERROR, errMsg := none, table := none }) ∧
    (∀ er, remote = .error er →
        (∃ cfg, collect_options_from_args now args = .ok cfg) →
        shsqlite_create now args remote allocOk ds =
          { status := SQLITE_ERROR,
            errMsg := error_to_sqlite3_string allocOk er.message,
            table := none }) ∧
    error_to_sqlite3_string true SoracomHarvestClientError.Auth.message =
      some "Failed to authenticate with auth key ID and auth key secret given" := by
  refine ⟨?_, ?_, by decide⟩
  · rintro ⟨e, he⟩
    unfold shsqlite_create
    rw [he]
  · rintro er her ⟨cfg, hc⟩
    unfold shsqlite_create
    rw [hc, her]

/-- Claim C3 (witness): a failing fetch under a valid IMSI argument
yields the error status, the authentication message, and no table. -/
theorem create_failure_surfacing_witness :
    shsqlite_create 0 ["IMSI \"x\""] (.error .Auth) true SQLITE_OK =
      { status := SQLITE_ERROR,
        errMsg := some "Failed to authenticate with auth key ID and auth key secret given",
        table := none } := by
  have h := (create_failure_surfacing 0 ["IMSI \"x\""] (.error .Auth) true SQLITE_OK).2.1
    .Auth rfl ⟨("x", .Global, 0 - 86400000, 0, 100), rfl⟩
  rw [h]; rfl

/-- Claim C4: for every string of ASCII-printable characters, decoding
the JSON object whose `payload` field is the base64 encoding of that
string yields exactly the literal object text with the decoded string
inserted after `"value":` without further escaping. -/
theorem try_decode_roundtrip (s : String)
    (h : ∀ c ∈ s.data, 0x20 ≤ c.toNat ∧ c.toNat ≤ 0x7E) :
    try_decode (mkPayloadJson (String.mk (base64EncodeList (s.data.map Char.toNat)))) =
      "\x7b\"value\":\"" ++ s ++ "\"\x7d" := by
  have hbytes : ∀ b ∈ s.data.map Char.toNat, b < 256 := by
    intro b hb
    rcases List.mem_map.mp hb with ⟨c, hc, rfl⟩
    have := (h c hc).2; omega
  have hchars : ∀ c ∈ (String.mk (base64EncodeList (s.data.map Char.toNat))).data,
      c ≠ '"' ∧ c ≠ '\\' ∧ 0x20 ≤ c.toNat := by
    intro c hc
    exact base64EncodeList_chars _ hbytes c hc
  unfold try_decode
  rw [parsePayload_mkPayloadJson _ hchars]
  dsimp only
  rw [show base64Decode (String.mk (base64EncodeList (s.data.map Char.toNat))) =
      base64DecodeGroups (base64EncodeList (s.data.map Char.toNat)) from rfl]
  rw [b64_roundtrip _ hbytes]
  dsimp only
  rw [show utf8Decode (s.data.map Char.toNat) = utf8Run (s.data.map Char.toNat) 0 0 0 0 from rfl]
  rw [utf8Run_ascii s.data (fun c hc => by have := (h c hc).2; omega)]
  dsimp only
  have hall : s.data.all (fun c => 0x20 ≤ c.toNat % 256 && c.toNat % 256 ≤ 0x7E) = true := by
    rw [List.all_eq_true]
    intro c hc
    have hcv := h c hc
    have hmod : c.toNat % 256 = c.toNat := Nat.mod_eq_of_lt (by omega)
    simp only [hmod]
    simp [hcv.1, hcv.2]
  rw [if_pos hall]

/-- Claim C4 (witness): the round trip at the concrete string `hello`,
whose payload encodes to `aGVsbG8=`. -/
theorem try_decode_roundtrip_witness :
    (∀ c ∈ "hello".data, 0x20 ≤ c.toNat ∧ c.toNat ≤ 0x7E) ∧
    try_decode (mkPayloadJson (String.mk (base64EncodeList ("hello".data.map Char.toNat)))) =
      "\x7b\"value\":\"" ++ "hello" ++ "\"\x7d" :=
  ⟨by decide, try_decode_roundtrip "hello" (by decide)⟩

/-- Claim C5: the spec says a decoded text containing any character
outside `0x20..0x7E` is passed through unchanged; the code's check
truncates each code point with `as u8`, so the payload `xKE=` — whose
decoded text is the single character `U+0121`, outside that range — is
nevertheless accepted and rewritten rather than returned unchanged. -/
theorem try_decode_printable_check_truncates :
    try_decode "\x7b\"payload\":\"xKE=\"\x7d" = "\x7b\"value\":\"ġ\"\x7d" ∧
    "\x7b\"value\":\"ġ\"\x7d" ≠ "\x7b\"payload\":\"xKE=\"\x7d" ∧
    base64Decode "xKE=" = some [0xC4, 0xA1] ∧
    utf8Decode [0xC4, 0xA1] = some [Char.ofNat 0x121] ∧
    ¬(0x20 ≤ (Char.ofNat 0x121).toNat ∧ (Char.ofNat 0x121).toNat ≤ 0x7E) ∧
    (0x20 ≤ (Char.ofNat 0x121).toNat % 256 ∧ (Char.ofNat 0x121).toNat % 256 ≤ 0x7E) :=
  ⟨by decide, by decide, by decide, by decide, by decide, by decide⟩

/-- Claim C6: an argument list in which no argument matches the IMSI
grammar leaves the scanned `imsi` empty, so `collect_options_from_args`
fails with `NoImsi` no matter which other valid keys are present. -/
theorem no_imsi_yields_noimsi_error (now : Int) (args : List String)
    (h : args.all noImsiArg = true) :
    collect_options_from_args now args = .error .NoImsi := by
  have hall : ∀ arg ∈ args, noImsiArg arg = true := by
    intro a ha; exact List.all_eq_true.mp h a ha
  unfold collect_options_from_args
  rw [if_pos (foldl_imsi_unchanged args _ hall)]

/-- Claim C6 (witness): all four other valid keys present, no IMSI. -/
theorem no_imsi_yields_noimsi_error_witness :
    (["COVERAGE \"japan\"", "FROM \"1\"", "TO \"2\"", "LIMIT \"10\""].all noImsiArg = true) ∧
    collect_options_from_args 0 ["COVERAGE \"japan\"", "FROM \"1\"", "TO \"2\"", "LIMIT \"10\""] =
      .error .NoImsi :=
  ⟨by decide, no_imsi_yields_noimsi_error 0 _ (by decide)⟩

/-- Claim C7: a fresh cursor over a snapshot of length N starts at
position 0; after k advances it sits at position k, has a value exactly
while k < N, reports end-of-rows exactly at k = N, and its rowid equals
the position k itself. -/
theorem cursor_full_scan_invariant (data : List Data) (k : Nat)
    (hk : k ≤ data.length) (h32 : k < 2 ^ 32) :
    (HarvestDataReader.new data).current_index = 0 ∧
    (advanceN (HarvestDataReader.new data) k).current_index = k ∧
    ((advanceN (HarvestDataReader.new data) k).has_value = true ↔ k < data.length) ∧
    shsqlite_eof (advanceN (HarvestDataReader.new data) k) =
      (if k = data.length then 1 else 0) ∧
    shsqlite_rowid (advanceN (HarvestDataReader.new data) k) = k := by
  have hidx : (advanceN (HarvestDataReader.new data) k).current_index = k := by
    rw [advanceN_index _ _ (by simp only [HarvestDataReader.new]; omega)]
    simp only [HarvestDataReader.new]
    omega
  have hdat : (advanceN (HarvestDataReader.new data) k).data = data := by
    rw [advanceN_data]; rfl
  refine ⟨rfl, hidx, ?_, ?_, ?_⟩
  · unfold HarvestDataReader.has_value
    rw [hidx, hdat]
    exact decide_eq_true_iff
  · unfold shsqlite_eof HarvestDataReader.has_value
    rw [hidx, hdat]
    by_cases hlt : k < data.length
    · rw [if_pos (by exact decide_eq_true hlt), if_neg (by omega)]
    · rw [if_neg (by simp [hlt]), if_pos (by omega)]
  · unfold shsqlite_rowid HarvestDataReader.get_index
    rw [hidx, Nat.mod_eq_of_lt h32]

/-- Claim C7 (witness): the invariant at the end position of a two-entry
snapshot. -/
theorem cursor_full_scan_invariant_witness :
    ((2 : Nat) ≤ ([⟨1, "a", "b"⟩, ⟨2, "c", "d"⟩] : List Data).length ∧ (2 : Nat) < 2 ^ 32) ∧
    ((HarvestDataReader.new [⟨1, "a", "b"⟩, ⟨2, "c", "d"⟩]).current_index = 0 ∧
     (advanceN (HarvestDataReader.new [⟨1, "a", "b"⟩, ⟨2, "c", "d"⟩]) 2).current_index = 2 ∧
     ((advanceN (HarvestDataReader.new [⟨1, "a", "b"⟩, ⟨2, "c", "d"⟩]) 2).has_value = true ↔
        2 < ([⟨1, "a", "b"⟩, ⟨2, "c", "d"⟩] : List Data).length) ∧
     shsqlite_eof (advanceN (HarvestDataReader.new [⟨1, "a", "b"⟩, ⟨2, "c", "d"⟩]) 2) =
       (if 2 = ([⟨1, "a", "b"⟩, ⟨2, "c", "d"⟩] : List Data).length then 1 else 0) ∧
     shsqlite_rowid (advanceN (HarvestDataReader.new [⟨1, "a", "b"⟩, ⟨2, "c", "d"⟩]) 2) = 2) :=
  ⟨⟨by decide, by decide⟩, cursor_full_scan_invariant _ 2 (by decide) (by decide)⟩

/-- Claim C8: a cell value is emitted as an integer cell exactly when it
parses as a signed 64-bit integer and as a text cell otherwise; the rule
runs uniformly through `yield_cell_value` for every column, so
numeric-looking `content_type` and `content` strings come out as
integer cells. -/
theorem column_type_inference :
    (∀ (r : HarvestDataReader) (c : Nat),
        shsqlite_column r c = yield_cell_value (r.get_value c)) ∧
    (∀ (v : String) (i : Int), parseI64 v = some i → yield_cell_value v = .int i) ∧
    (∀ v : String, parseI64 v = none → yield_cell_value v = .text v) ∧
    shsqlite_column (HarvestDataReader.new [⟨1000, "123", "456"⟩]) 0 = .int 1000 ∧
    shsqlite_column (HarvestDataReader.new [⟨1000, "123", "456"⟩]) 1 = .int 123 ∧
    shsqlite_column (HarvestDataReader.new [⟨1000, "123", "456"⟩]) 2 = .int 456 ∧
    shsqlite_column (HarvestDataReader.new [⟨1000, "abc", "x"⟩]) 1 = .text "abc" :=
  ⟨fun _ _ => rfl,
   fun v i h => by unfold yield_cell_value; rw [h],
   fun v h => by unfold yield_cell_value; rw [h],
   rfl, rfl, rfl, rfl⟩

/-- Claim C8 (witness): a numeric string becomes an integer cell. -/
theorem column_type_inference_witness : yield_cell_value "77" = .int 77 :=
  column_type_inference.2.1 "77" 77 (by decide)

/-- Claim C9: converting a COVERAGE value to an endpoint is total: the
case-insensitive values jp/japan select Japan, g/global select Global,
and every other value silently falls back to Global; a grammar-matched
COVERAGE argument therefore always parses successfully. -/
theorem coverage_parsing_total :
    (∀ v : String, Endpoint.fromStr v = .Japan ∨ Endpoint.fromStr v = .Global) ∧
    (∀ v : String, Endpoint.fromStr v = .Japan ↔
        (asciiLower v = "jp" ∨ asciiLower v = "japan")) ∧
    (∀ (s v : String), matchArgument s.data = some (.coverage, v) →
        parse_option s = .ok (.Coverage (Endpoint.fromStr v))) ∧
    Endpoint.fromStr "JAPAN" = .Japan ∧ Endpoint.fromStr "Jp" = .Japan ∧
    Endpoint.fromStr "G" = .Global ∧ Endpoint.fromStr "GLOBAL" = .Global ∧
    Endpoint.fromStr "jpan" = .Global ∧ Endpoint.fromStr "" = .Global := by
  refine ⟨?_, ?_, ?_, by decide, by decide, by decide, by decide, by decide, by decide⟩
  · intro v
    dsimp only [Endpoint.fromStr]
    split_ifs <;> simp
  · intro v
    dsimp only [Endpoint.fromStr]
    split_ifs with h1 h2
    · constructor
      · intro hc; exact absurd hc (by decide)
      · intro hr
        rcases h1 with h1 | h1 <;> rcases hr with hr | hr <;>
          rw [h1] at hr <;> exact absurd hr (by decide)
    · simp [h2]
    · constructor
      · intro hc; exact absurd hc (by decide)
      · intro hr; exact absurd hr h2
  · intro s v h
    unfold parse_option
    rw [h]

/-- Claim C9 (witness): a concrete grammar-matched COVERAGE argument. -/
theorem coverage_parsing_total_witness :
    parse_option "COVERAGE \"japan\"" = .ok (.Coverage (Endpoint.fromStr "japan")) :=
  coverage_parsing_total.2.2.1 "COVERAGE \"japan\"" "japan" (by decide)

/-- Claim C10 (counterexample): the claim's unbounded "remains at end
under further advances" fails at the `usize` wrap-around — over a
one-entry snapshot, the cursor after `2 ^ 64 - 1` advances is at end,
but one more advance wraps the index to 0 and `has_value` is true
again. -/
theorem cursor_reenters_after_usize_wrap :
    (advanceN (HarvestDataReader.new [⟨1, "a", "b"⟩]) (2 ^ 64 - 1)).has_value = false ∧
    (advanceN (HarvestDataReader.new [⟨1, "a", "b"⟩]) (2 ^ 64)).has_value = true ∧
    (advanceN (HarvestDataReader.new [⟨1, "a", "b"⟩]) (2 ^ 64)).current_index = 0 := by
  have h0 : (HarvestDataReader.new [(⟨1, "a", "b"⟩ : Data)]).current_index < 2 ^ 64 := by
    simp only [HarvestDataReader.new]; omega
  have h1 := advanceN_index (HarvestDataReader.new [(⟨1, "a", "b"⟩ : Data)]) (2 ^ 64 - 1) h0
  have h2 := advanceN_index (HarvestDataReader.new [(⟨1, "a", "b"⟩ : Data)]) (2 ^ 64) h0
  have hd1 := advanceN_data (HarvestDataReader.new [(⟨1, "a", "b"⟩ : Data)]) (2 ^ 64 - 1)
  have hd2 := advanceN_data (HarvestDataReader.new [(⟨1, "a", "b"⟩ : Data)]) (2 ^ 64)
  refine ⟨?_, ?_, ?_⟩
  · unfold HarvestDataReader.has_value
    rw [h1, hd1]
    simp only [HarvestDataReader.new, List.length_cons, List.length_nil,
      decide_eq_false_iff_not]
    omega
  · unfold HarvestDataReader.has_value
    rw [h2, hd2]
    simp only [HarvestDataReader.new, List.length_cons, List.length_nil,
      decide_eq_true_eq]
    omega
  · rw [h2]
    simp only [HarvestDataReader.new]
    omega

/-- Claim C10 (amended): cursor operations are total past the end of the
snapshot as long as the total number of advances stays below the `usize`
wrap-around at `2 ^ 64`: after k advances with k at least the snapshot
length, `has_value` is false, `get_value` returns the empty string for
every ordinal, and m further advances with k + m below `2 ^ 64` keep the
cursor at end. -/
theorem cursor_total_past_end (data : List Data) (k m i : Nat)
    (hk : data.length ≤ k) (hwrap : k + m < 2 ^ 64) :
    (advanceN (HarvestDataReader.new data) k).has_value = false ∧
    (advanceN (HarvestDataReader.new data) k).get_value i = "" ∧
    (advanceN (advanceN (HarvestDataReader.new data) k) m).has_value = false := by
  have hidx : (advanceN (HarvestDataReader.new data) k).current_index = k := by
    rw [advanceN_index _ _ (by simp only [HarvestDataReader.new]; omega)]
    simp only [HarvestDataReader.new]
    omega
  have hdat : (advanceN (HarvestDataReader.new data) k).data = data := by
    rw [advanceN_data]; rfl
  have hidx2 : (advanceN (advanceN (HarvestDataReader.new data) k) m).current_index = k + m := by
    rw [advanceN_index _ _ (by rw [hidx]; omega), hidx]
    omega
  have hdat2 : (advanceN (advanceN (HarvestDataReader.new data) k) m).data = data := by
    rw [advanceN_data, hdat]
  refine ⟨?_, ?_, ?_⟩
  · unfold HarvestDataReader.has_value
    rw [hidx, hdat]; simp; omega
  · unfold HarvestDataReader.get_value
    rw [hidx, hdat, List.get?_eq_none.mpr hk]
  · unfold HarvestDataReader.has_value
    rw [hidx2, hdat2]; simp; omega

/-- Claim C10 (witness): three advances over a one-entry snapshot, then
two more, far below the wrap-around. -/
theorem cursor_total_past_end_witness :
    (([⟨1, "a", "b"⟩] : List Data).length ≤ 3 ∧ (3 : Nat) + 2 < 2 ^ 64) ∧
    ((advanceN (HarvestDataReader.new [⟨1, "a", "b"⟩]) 3).has_value = false ∧
     (advanceN (HarvestDataReader.new [⟨1, "a", "b"⟩]) 3).get_value 1 = "" ∧
     (advanceN (advanceN (HarvestDataReader.new [⟨1, "a", "b"⟩]) 3) 2).has_value = false) :=
  ⟨⟨by decide, by decide⟩, cursor_total_past_end _ 3 2 1 (by decide) (by decide)⟩
